import Mathlib

/-!
Verification of the streaming HTML template engine described in the two
posts `html-streaming-part-1.md` and `html-streaming-part-2/index.md`:
the `html` tagged-template sequencer, the `escape` function, the JIT
compiler (`compile` / `buildSource`) and the two renderers (the part-1
async generator `_render` and the part-2 coroutine `_render` driven by
`pump` with a buffer).
-/

namespace TplStream

/--
Shallow model of the JavaScript values that flow through the engine.

* `str s` — a JS string (iterable, `typeof === 'string'`, no `then`).
* `prim p` — any other non-iterable, non-thenable value (number, boolean,
  `undefined`, ...); `p` is its `String(...)` image (e.g. `prim "42"`).
* `list l` — an array or (already-run) generator: iterable, not a string,
  no `then`; iteration yields the elements of `l` in order.
* `thenable d v` — a promise-like value exposing `then`, not iterable;
  awaiting it eventually yields `v`; `d` records its resolution delay
  (the time the promise takes to settle), which the value's consumer may
  or may not depend on.
* `iterThen d l v` — a value exposing both `Symbol.iterator` (yielding
  `l`) and `then` (resolving to `v` after delay `d`): a value satisfying
  two capabilities at once.
-/
inductive Value : Type where
  | str : String → Value
  | prim : String → Value
  | list : List Value → Value
  | thenable : Nat → Value → Value
  | iterThen : Nat → List Value → Value → Value
deriving Repr

/-- The apostrophe character (the fifth entry of the source's `escapeMap`). -/
def apos : Char := Char.ofNat 39

/-- The source's `escapeMap` object: the five characters it maps, and their
named entities.  `none` for a character that is not a key of the map. -/
def escapeMapJs (c : Char) : Option String :=
  if c = '&' then some "&amp;"
  else if c = '<' then some "&lt;"
  else if c = '>' then some "&gt;"
  else if c = '"' then some "&quot;"
  else if c = apos then some "&#39;"
  else none

/-- The replacement performed on one character by
`value.replace(htmlEntities, (char) => escapeMap[char])`: a character
matched by `/[&<>"']/g` is replaced by its entity, any other character is
kept as is. -/
def escapeChar (c : Char) : String := (escapeMapJs c).getD (String.singleton c)

/-- Whether `c` is matched by the source's `htmlEntities` regexp `/[&<>"']/`. -/
def isEntityChar (c : Char) : Bool := (escapeMapJs c).isSome

/-- Character-list form of the global replace: every character is sent
through `escapeChar` and the pieces are concatenated. -/
def escData : List Char → List Char
  | [] => []
  | c :: cs => (escapeChar c).data ++ escData cs

/-- The source's `escape`: if `/[&<>"']/.test(value)` succeeds, run the
global replace, otherwise return the input itself. -/
def escape (s : String) : String :=
  if s.data.any isEntityChar then String.mk (escData s.data) else s

/-- `typeof value === 'string'`. -/
def isStringV : Value → Bool
  | .str _ => true
  | _ => false

/-- `value?.[Symbol.iterator]` is truthy: strings, arrays/generators, and
values carrying both capabilities. -/
def hasIterator : Value → Bool
  | .str _ => true
  | .list _ => true
  | .iterThen _ _ _ => true
  | _ => false

/-- `value?.then` is truthy. -/
def hasThen : Value → Bool
  | .thenable _ _ => true
  | .iterThen _ _ _ => true
  | _ => false

/-- The elements produced by `yield* value` / `for (const x of value)` on an
iterable value: a string yields its characters one by one (as strings),
an array its elements.  (On a non-iterable value JS throws a `TypeError`;
the renderers model that case by their own non-iterable branches, and
this function is only applied to iterable values.) -/
def iterElems : Value → List Value
  | .str s => s.data.map (fun c => .str (String.singleton c))
  | .list l => l
  | .iterThen _ l _ => l
  | _ => []

/-- `String(value)`.  For an array, `Array.prototype.toString` joins the
stringified elements with commas. -/
def jsString : Value → String
  | .str s => s
  | .prim p => p
  | .list l => String.intercalate "," (l.attach.map fun x => jsString x.1)
  | .thenable _ _ => "[object Object]"
  | .iterThen _ _ _ => "[object Object]"
decreasing_by
  simp only [Value.list.sizeOf_spec]
  have := List.sizeOf_lt_of_mem x.2
  omega

/-- The JS helper `zip = (a, b) => a.map((item, i) => [item, b[i]])`:
pairs each element of `a` with the same-index element of `b`, the index
running past `b` giving `undefined` (modelled as `prim "undefined"`). -/
def jsZip : List String → List Value → List (String × Value)
  | [], _ => []
  | p :: ps, [] => (p, .prim "undefined") :: jsZip ps []
  | p :: ps, v :: vs => (p, v) :: jsZip ps vs

/-- The chunks contributed by one interpolated value in the body of the
part-1 `html` generator: `yield* value` for an iterable non-string,
`yield value` for a thenable, `yield escape(String(value))` otherwise. -/
def classifyChunks (v : Value) : List Value :=
  if hasIterator v && !isStringV v then iterElems v
  else if hasThen v then [v]
  else [.str (escape (jsString v))]

/-- The part-1 `html` tagged template: yields the first static part, then
for each `[templatePart, value]` pair of `zip(rest, values)` the chunks of
the value followed by the static part.  (On an empty parts array the JS
destructuring gives `first = undefined`, which is yielded as such.) -/
def html : List String → List Value → List Value
  | [], _ => [.prim "undefined"]
  | first :: rest, values =>
      .str first :: (jsZip rest values).flatMap fun pv => classifyChunks pv.2 ++ [.str pv.1]

/-- JS `array.join('')`: left fold of string concatenation over the array. -/
def joinStrs (l : List String) : String := l.foldl (· ++ ·) ""

/-! ## Spec-side definitions for the sequencer contract (claim C1)

These two definitions follow the words of the spec (§4.1 and §6), not the
source: `fClassify` is the classification `f` with its fixed priority
order (iterable-and-not-string first, then deferred capability, then
stringify-and-escape), written by cases on the value's shape; and
`specInterleave` is the sequence `S[0], f(V[0]), S[1], ..., S[n]`. -/

/-- The spec's `f`: (1) an iterable non-string value is a nested Sequence,
delegated to element by element; (2) otherwise a value with deferred
capability is kept as-is, a Deferred; (3) otherwise stringify and escape.
A value with both capabilities (`iterThen`) falls to case (1), the first
matching check. -/
def fClassify : Value → List Value
  | .list items => items
  | .iterThen _ items _ => items
  | .thenable d w => [.thenable d w]
  | .str s => [.str (escape s)]
  | .prim p => [.str (escape p)]

/-- The spec's fragment sequence `S[0], f(V[0]), S[1], f(V[1]), ..., S[n]`
for `parts = S[0..n]` and `values = V[0..n-1]`. -/
def specInterleave : List String → List Value → List Value
  | [s0], [] => [.str s0]
  | s0 :: parts, v :: vs => .str s0 :: (fClassify v ++ specInterleave parts vs)
  | _, _ => []

/-! ## Claim C2: the escape function -/

/-- The four escaped characters whose entities never contain them; `&` is
special in that every named entity itself starts with `&`. -/
def badChar (c : Char) : Bool := c = '<' || c = '>' || c = '"' || c = apos

/-! ## The part-1 renderer: `_render` as an async generator -/

/-- The value `await chunk` produces: JS `await` unwraps chained
thenables until a non-thenable value is reached (a value with both
capabilities still exposes `then`, so `await` unwraps it too). -/
def awaited : Value → Value
  | .thenable _ v => awaited v
  | .iterThen _ _ v => awaited v
  | v => v

def sizeOf_awaited_le : ∀ v : Value, sizeOf (awaited v) ≤ sizeOf v
  | .str s => by simp [awaited]
  | .prim p => by simp [awaited]
  | .list l => by simp [awaited]
  | .thenable d w => by
    have h := sizeOf_awaited_le w
    simp only [awaited, Value.thenable.sizeOf_spec]
    omega
  | .iterThen d l w => by
    have h := sizeOf_awaited_le w
    simp only [awaited, Value.iterThen.sizeOf_spec]
    omega

/-- Render-time failures: `unsupported` is `throw new Error('Unsupported
chunk')`; `notIterable` is the `TypeError` JS raises when `for...of` is
applied to a non-iterable value (e.g. after a promise resolved to a bare
number). -/
inductive RErr : Type where
  | unsupported : RErr
  | notIterable : RErr
deriving Repr, DecidableEq

mutual

/-- Part-1 `_render(template)`: `for (const chunk of template)` over the
template's iteration.  A string template iterates its characters, each a
single-character string chunk that the string branch of the loop yields
unchanged; an array iterates its elements; a non-iterable is a
`TypeError`. -/
def render1 : Value → Except RErr (List String)
  | .str s => .ok (s.data.map String.singleton)
  | .list l => render1List l
  | .iterThen _ l _ => render1List l
  | .prim _ => .error .notIterable
  | .thenable _ _ => .error .notIterable
termination_by v => (sizeOf v, 1)
decreasing_by
  all_goals simp_wf
  all_goals apply Prod.Lex.left
  all_goals try simp
  all_goals omega

def render1List : List Value → Except RErr (List String)
  | [] => .ok []
  | c :: cs => do
    let h ← render1Chunk c
    let t ← render1List cs
    return h ++ t
termination_by l => (sizeOf l, 0)
decreasing_by
  all_goals simp_wf
  all_goals apply Prod.Lex.left
  all_goals try simp
  all_goals omega

/-- The part-1 loop body for one chunk, with the source's check order: a
string is yielded; else a thenable (`chunk?.then`, checked *before* the
iterator capability) is awaited and the result re-rendered; else an
iterable is re-rendered; else `throw new Error('Unsupported chunk')`. -/
def render1Chunk : Value → Except RErr (List String)
  | .str s => .ok [s]
  | .thenable d w => render1 (awaited (.thenable d w))
  | .iterThen d l w => render1 (awaited (.iterThen d l w))
  | .list l => render1 (.list l)
  | .prim _ => .error .unsupported
termination_by v => (sizeOf v, 2)
decreasing_by
  all_goals simp_wf
  · apply Prod.Lex.left
    have := sizeOf_awaited_le w
    simp only [awaited] at this ⊢
    simp
    omega
  · apply Prod.Lex.left
    have := sizeOf_awaited_le w
    simp only [awaited] at this ⊢
    simp
    omega
  · apply Prod.Lex.right
    omega

end

/-! ## The part-2 renderer: coroutine `_render` driven by `pump` with a buffer -/

/-- One sink-visible event of the part-2 renderer: an emission attempt
(`controller.enqueue(buffer.join(''))` on the real stream controller) or
the awaiting of one yielded thenable by `pump`. -/
inductive Ev : Type where
  | emit : String → Ev
  | await : Ev
deriving Repr, DecidableEq

/-- Part-2 renderer state: the string buffer the wrapped controller pushes
into, the ordered trace of emission attempts and awaits, how many more
chunks the consuming sink is willing to accept (decremented at each
emission attempt; the rendering code never reads it), and the pending
error if the render failed. -/
structure S2 : Type where
  buffer : List String
  trace : List Ev
  sink : Nat
  err : Option RErr
deriving Repr, DecidableEq

/-- The flush performed by `pump`: `if (buffer.length)
controller.enqueue(buffer.join(''))` followed by emptying the buffer
(`buffer.length = 0`).  An empty buffer causes no emission. -/
def flushS (s : S2) : S2 :=
  if s.buffer.isEmpty then { s with buffer := [] }
  else
    { s with
      buffer := []
      trace := s.trace ++ [.emit (joinStrs s.buffer)]
      sink := s.sink - 1 }

mutual

/-- Part-2 `_render(template, controller)`: `for (const chunk of
template)`; a string template iterates its characters (each pushed to the
buffer by the string branch); a non-iterable template is a `TypeError`. -/
def render2T : Value → S2 → S2
  | v, s =>
    if s.err.isSome then s
    else
      match v with
      | .str t => { s with buffer := s.buffer ++ t.data.map String.singleton }
      | .list l => render2L l s
      | .iterThen _ l _ => render2L l s
      | .prim _ => { s with err := some .notIterable }
      | .thenable _ _ => { s with err := some .notIterable }
termination_by v _ => (sizeOf v, 1)
decreasing_by
  all_goals simp_wf
  all_goals apply Prod.Lex.left
  all_goals try simp
  all_goals omega

def render2L : List Value → S2 → S2
  | [], s => s
  | c :: cs, s => render2L cs (render2C c s)
termination_by l _ => (sizeOf l, 0)
decreasing_by
  all_goals simp_wf
  all_goals apply Prod.Lex.left
  all_goals try simp
  all_goals omega

/-- The part-2 loop body for one chunk, with the source's check order: a
string is enqueued (pushed to the buffer); else an iterable (checked
*before* `then`) is delegated to; else a thenable is yielded, which makes
`pump` flush the buffer, await the value, clear the buffer and resume the
coroutine with the resolved value; else `throw new Error('Unsupported
chunk')`. -/
def render2C : Value → S2 → S2
  | v, s =>
    if s.err.isSome then s
    else
      match v with
      | .str t => { s with buffer := s.buffer ++ [t] }
      | .list l => render2T (.list l) s
      | .iterThen d l w => render2T (.iterThen d l w) s
      | .thenable _ w =>
        render2Res (awaited w) { flushS s with trace := (flushS s).trace ++ [.await] }
      | .prim _ => { s with err := some .unsupported }
termination_by v _ => (sizeOf v, 3)
decreasing_by
  all_goals simp_wf
  · apply Prod.Lex.right
    omega
  · apply Prod.Lex.right
    omega
  · apply Prod.Lex.left
    have := sizeOf_awaited_le w
    simp
    omega

/-- What the coroutine does with the value `pump` sends back for a
resolved thenable (`const resolved = yield chunk`): a resolved string is
enqueued as-is, anything else is delegated to `_render(resolved,
controller)`. -/
def render2Res : Value → S2 → S2
  | .str t, s => { s with buffer := s.buffer ++ [t] }
  | .prim p, s => render2T (.prim p) s
  | .list l, s => render2T (.list l) s
  | .thenable d w, s => render2T (.thenable d w) s
  | .iterThen d l w, s => render2T (.iterThen d l w) s
termination_by v _ => (sizeOf v, 2)
decreasing_by
  all_goals simp_wf
  all_goals apply Prod.Lex.right
  all_goals omega

end

/-- The part-2 `render(template)` with the buffering controller: run the
coroutine from an empty buffer; when the generator is done, flush any
leftover buffered text and close.  On an error the exception propagates
out of `pump` and nothing more is flushed.  `sink` is how many chunks the
consuming sink will accept. -/
def render2 (sink : Nat) (template : Value) : S2 :=
  let s := render2T template ⟨[], [], sink, none⟩
  if s.err.isSome then s else flushS s

/-- The emission attempts of a finished render, in order. -/
def emissions (s : S2) : List String :=
  s.trace.filterMap fun e =>
    match e with
    | .emit t => some t
    | .await => none

/-- How many thenables the renderer awaited. -/
def awaitCount (s : S2) : Nat := (s.trace.filter fun e => e = Ev.await).length

/-! ## Equivalence of the two renderers on unambiguous values -/

mutual

/-- No sub-value carries both the iterator and the `then` capability.
The two `_render` loops test the two capabilities in opposite orders
(part 1: `then` first; part 2: iterator first), so such a value is the
one place they can disagree. -/
def noAmb : Value → Bool
  | .str _ => true
  | .prim _ => true
  | .list l => noAmbL l
  | .thenable _ w => noAmb w
  | .iterThen _ _ _ => false
termination_by v => (sizeOf v, 1)
decreasing_by
  all_goals simp_wf
  all_goals apply Prod.Lex.left
  all_goals try simp
  all_goals omega

def noAmbL : List Value → Bool
  | [] => true
  | c :: cs => noAmb c && noAmbL cs
termination_by l => (sizeOf l, 0)
decreasing_by
  all_goals simp_wf
  all_goals apply Prod.Lex.left
  all_goals try simp
  all_goals omega

end

/-- All text a render has produced so far: the emission attempts followed
by what is still sitting in the buffer. -/
def totalText (s : S2) : String := joinStrs (emissions s) ++ joinStrs s.buffer

/-! ## Resolution timing (claim C5) -/

mutual

/-- Change every thenable's resolution delay by `f`, leaving the resolved
values and the tree structure untouched: the same template in a run whose
deferred values settle at different times. -/
def retime (f : Nat → Nat) : Value → Value
  | .str s => .str s
  | .prim p => .prim p
  | .list l => .list (retimeL f l)
  | .thenable d w => .thenable (f d) (retime f w)
  | .iterThen d l w => .iterThen (f d) (retimeL f l) (retime f w)
termination_by v => (sizeOf v, 1)
decreasing_by
  all_goals simp_wf
  all_goals apply Prod.Lex.left
  all_goals try simp
  all_goals omega

def retimeL (f : Nat → Nat) : List Value → List Value
  | [] => []
  | c :: cs => retime f c :: retimeL f cs
termination_by l => (sizeOf l, 0)
decreasing_by
  all_goals simp_wf
  all_goals apply Prod.Lex.left
  all_goals try simp
  all_goals omega

end

/-! ## Claim C9: the sink's signal is never consulted -/

/-- Two renderer states that agree on everything the rendering logic can
observe or produce — buffer, event trace, error — and may differ only in
how much the sink is still willing to accept. -/
def eqNoSink (s1 s2 : S2) : Prop :=
  s1.buffer = s2.buffer ∧ s1.trace = s2.trace ∧ s1.err = s2.err

/-! ## The part-2 JIT compiler: `compile` / `buildSource` (claim C3) -/

/-- One piece of a concatenation expression in the generated source:
static template text, or `utils.escape(String(argI))` for slot `i`. -/
inductive Piece : Type where
  | text : String → Piece
  | slot : Nat → Piece
deriving Repr

/-- One statement of the generated generator body: `yield` of a
concatenation of pieces, `yield *argI`, or `yield argI`. -/
inductive Stmt : Type where
  | yieldConcat : List Piece → Stmt
  | yieldStar : Nat → Stmt
  | yieldVal : Nat → Stmt
deriving Repr

/-- Modelled from the spec: the helper `isAsync` used by `buildSource` is
nowhere defined in the posts; per the spec's value-capability contract
("exposes a resolution/then-like operation → Deferred") and the part-1
sequencer's `value?.then` test, it checks the `then` capability. -/
def isAsync (v : Value) : Bool := hasThen v

/-- The statements of the generator source built by `buildSource`'s
reduce, processed left to right: `cur` holds the pieces of the trailing
unterminated `yield` expression (source suffix ``yield `...` + ...``).
The literal branch appends ``+utils.escape(String(argI)) + `tplPart` ``
to that expression; the iterable and async branches terminate it (the
leading `;`), yield the slot, and open a fresh `yield `tplPart``; the
final `+ ';'` closes the last expression. -/
def planFrom (cur : List Piece) : List (String × Value) → Nat → List Stmt
  | [], _ => [.yieldConcat cur]
  | (p, v) :: rest, i =>
    if hasIterator v && !isStringV v then
      .yieldConcat cur :: .yieldStar i :: planFrom [.text p] rest (i + 1)
    else if isAsync v then
      .yieldConcat cur :: .yieldVal i :: planFrom [.text p] rest (i + 1)
    else
      planFrom (cur ++ [.slot i, .text p]) rest (i + 1)

/-- `buildSource(templateParts, ...values)`: start from ``yield `first``
and fold the `zip(rest, values)` tuples.  (On an empty parts array the JS
destructuring gives `first = undefined`, interpolated into the template
literal as the text `undefined`.) -/
def buildSource : List String → List Value → List Stmt
  | [], _ => [.yieldConcat [.text "undefined"]]
  | first :: rest, values => planFrom [.text first] (jsZip rest values) 0

/-- The string value of one piece when the compiled generator runs with
arguments `args` (a missing argument is `undefined`). -/
def pieceVal (args : List Value) : Piece → String
  | .text t => t
  | .slot i => escape (jsString (args.getD i (.prim "undefined")))

/-- The chunks yielded by one statement of the compiled generator run
with `args`: a concatenation yields one string; `yield *argI` yields the
elements of the (iterable) argument; `yield argI` yields the argument
itself.  (In JS, `yield*` on a non-iterable argument throws a
`TypeError`; that mismatch case, which the theorems below exclude by
keeping compile-time and call-time capabilities aligned, is modelled as
yielding nothing.) -/
def runStmt (args : List Value) : Stmt → List Value
  | .yieldConcat ps => [.str (joinStrs (ps.map (pieceVal args)))]
  | .yieldStar i => iterElems (args.getD i (.prim "undefined"))
  | .yieldVal i => [args.getD i (.prim "undefined")]

/-- The part-2 `html`: a cache miss compiles the template parts against
the *first* call's values; every later call with the same parts runs the
cached compiled generator on its own values.  `producerChunks parts cvals
args` is the chunk sequence of the producer compiled with `cvals` and
invoked with `args`. -/
def producerChunks (parts : List String) (cvals args : List Value) : List Value :=
  (buildSource parts cvals).flatMap (runStmt args)

/-- Which of the three `buildSource` branches a value selects: `0` for
iterable-and-not-a-string, `1` for async (thenable), `2` for the
escaped-literal branch. -/
def slotKind (v : Value) : Nat :=
  if hasIterator v && !isStringV v then 0 else if isAsync v then 1 else 2

/-- The text of a part-1 render of a chunk list. -/
def rtext (l : List Value) : Except RErr String := (render1List l).map joinStrs

/-! ## Theorems -/

@[simp] theorem escData_nil : escData [] = [] := rfl
@[simp] theorem escData_cons (c : Char) (cs : List Char) :
    escData (c :: cs) = (escapeChar c).data ++ escData cs := rfl

@[simp] theorem jsZip_nil (b : List Value) : jsZip [] b = [] := rfl
@[simp] theorem jsZip_cons (p : String) (ps : List String) (v : Value) (vs : List Value) :
    jsZip (p :: ps) (v :: vs) = (p, v) :: jsZip ps vs := rfl

@[simp] theorem html_cons (first : String) (rest : List String) (values : List Value) :
    html (first :: rest) values =
      .str first :: (jsZip rest values).flatMap fun pv => classifyChunks pv.2 ++ [.str pv.1] :=
  rfl

theorem foldl_append_hoist (l : List String) (a : String) :
    l.foldl (· ++ ·) a = a ++ joinStrs l := by
  induction l generalizing a with
  | nil => simp [joinStrs]
  | cons x xs ih =>
    rw [joinStrs, List.foldl_cons, List.foldl_cons, ih, ih ("" ++ x), String.append_assoc]
    simp

@[simp] theorem joinStrs_nil : joinStrs [] = "" := rfl

@[simp] theorem joinStrs_cons (x : String) (xs : List String) :
    joinStrs (x :: xs) = x ++ joinStrs xs := by
  rw [joinStrs, List.foldl_cons, foldl_append_hoist]
  simp

theorem joinStrs_append (xs ys : List String) :
    joinStrs (xs ++ ys) = joinStrs xs ++ joinStrs ys := by
  induction xs with
  | nil => simp
  | cons x xs ih => simp [ih, String.append_assoc]

theorem classifyChunks_eq_fClassify (v : Value) : classifyChunks v = fClassify v := by
  cases v <;>
    simp [classifyChunks, fClassify, hasIterator, isStringV, hasThen, iterElems, jsString]

/-- C1: for static segments `S[0..n]` and values `V[0..n-1]`, the `html`
sequencer yields exactly `S[0], f(V[0]), S[1], f(V[1]), ..., S[n]`, where
`f` classifies each value by the fixed priority order
iterable-and-not-string → Sequence (delegated), then thenable → Deferred
(as-is), then stringify-and-escape → Literal; a value with several
capabilities takes the first matching branch. -/
theorem html_yields_spec_sequence :
    ∀ (values : List Value) (parts : List String),
      parts.length = values.length + 1 → html parts values = specInterleave parts values := by
  intro values
  induction values with
  | nil =>
    intro parts h
    match parts, h with
    | [p], _ => simp [html, specInterleave, jsZip]
  | cons v vs ih =>
    intro parts h
    match parts, h with
    | p0 :: p1 :: rest, h =>
      have hlen : (p1 :: rest).length = vs.length + 1 := by
        simpa using h
      have htail := ih (p1 :: rest) hlen
      simp only [html_cons, jsZip_cons, List.flatMap_cons] at htail ⊢
      simp only [specInterleave, classifyChunks_eq_fClassify]
      rw [← htail]
      simp [html_cons, List.append_assoc, classifyChunks_eq_fClassify]

/-- Witness for C1 at a concrete call site. -/
theorem html_yields_spec_sequence_witness :
    html ["<p>", "</p>"] [.str "x"] = specInterleave ["<p>", "</p>"] [.str "x"] :=
  html_yields_spec_sequence [.str "x"] ["<p>", "</p>"] rfl

theorem bad_entity (a : Char) (h : badChar a = true) : isEntityChar a = true := by
  rcases (by simpa [badChar] using h : ((a = '<' ∨ a = '>') ∨ a = '"') ∨ a = apos) with
    ((h | h) | h) | h <;> subst h <;> decide

theorem escapeMapJs_cases (a : Char) :
    escapeMapJs a = none ∨
      escapeMapJs a = some "&amp;" ∨ escapeMapJs a = some "&lt;" ∨
      escapeMapJs a = some "&gt;" ∨ escapeMapJs a = some "&quot;" ∨
      escapeMapJs a = some "&#39;" := by
  rw [escapeMapJs]
  split_ifs <;> simp

theorem escData_id (l : List Char) (h : ∀ c ∈ l, isEntityChar c = false) :
    escData l = l := by
  induction l with
  | nil => rfl
  | cons c cs ih =>
    have hc : isEntityChar c = false := h c (by simp)
    have hm : escapeMapJs c = none := by
      cases hm : escapeMapJs c with
      | none => rfl
      | some e => rw [isEntityChar, hm] at hc; simp at hc
    have ht : escData cs = cs := ih fun d hd => h d (by simp [hd])
    simp [escData, escapeChar, hm, String.singleton, ht]

theorem escapeChar_not_bad (a c : Char) (hc : c ∈ (escapeChar a).data) :
    badChar c = false := by
  rcases escapeMapJs_cases a with h | h | h | h | h | h
  · rw [escapeChar, h] at hc
    have hca : c = a := by simpa [String.singleton] using hc
    subst hca
    by_contra hb
    have hb2 : badChar c = true := by simpa using hb
    have he : isEntityChar c = true := bad_entity c hb2
    rw [isEntityChar, h] at he
    simp at he
  · rw [escapeChar, h] at hc
    exact (by decide : ∀ x ∈ ("&amp;" : String).data, badChar x = false) c hc
  · rw [escapeChar, h] at hc
    exact (by decide : ∀ x ∈ ("&lt;" : String).data, badChar x = false) c hc
  · rw [escapeChar, h] at hc
    exact (by decide : ∀ x ∈ ("&gt;" : String).data, badChar x = false) c hc
  · rw [escapeChar, h] at hc
    exact (by decide : ∀ x ∈ ("&quot;" : String).data, badChar x = false) c hc
  · rw [escapeChar, h] at hc
    exact (by decide : ∀ x ∈ ("&#39;" : String).data, badChar x = false) c hc

theorem escData_mem (l : List Char) (c : Char) (hc : c ∈ escData l) :
    ∃ a ∈ l, c ∈ (escapeChar a).data := by
  induction l with
  | nil => simp [escData] at hc
  | cons a as ih =>
    rw [escData_cons] at hc
    rcases List.mem_append.1 hc with h | h
    · exact ⟨a, by simp, h⟩
    · obtain ⟨b, hb, hcb⟩ := ih h
      exact ⟨b, by simp [hb], hcb⟩

theorem escape_no_bad (s : String) (c : Char) (hc : c ∈ (escape s).data) :
    badChar c = false := by
  rw [escape] at hc
  split_ifs at hc with h
  · obtain ⟨a, _, hca⟩ := escData_mem s.data c hc
    exact escapeChar_not_bad a c hca
  · have hent : isEntityChar c = false := by
      cases he : isEntityChar c
      · rfl
      · exact absurd (List.any_eq_true.2 ⟨c, hc, he⟩) (by simp [h])
    by_contra hb
    have hb2 : badChar c = true := by simpa using hb
    rw [bad_entity c hb2] at hent
    exact Bool.true_eq_false.mp hent |>.elim

/-- C2: `escape` maps every character through the `escapeMap` replacement
(the five characters `&ampersand; < > " '` become `&amp; &lt; &gt; &quot;
&#39;` and no other character is altered); an input with none of the five
is returned unchanged; and the output contains no raw `< > " '`. -/
theorem escape_replaces_exactly_five (s : String) :
    escape s = String.mk (escData s.data)
    ∧ ((∀ c ∈ s.data, isEntityChar c = false) → escape s = s)
    ∧ (∀ c, isEntityChar c = false → escapeChar c = String.singleton c)
    ∧ (escapeChar '&' = "&amp;" ∧ escapeChar '<' = "&lt;" ∧ escapeChar '>' = "&gt;"
        ∧ escapeChar '"' = "&quot;" ∧ escapeChar apos = "&#39;")
    ∧ (∀ c ∈ (escape s).data, badChar c = false) := by
  refine ⟨?_, ?_, ?_, by decide, escape_no_bad s⟩
  · rw [escape]
    split_ifs with h
    · rfl
    · have hall : ∀ c ∈ s.data, isEntityChar c = false := by
        intro c hc
        cases he : isEntityChar c
        · rfl
        · exact absurd (List.any_eq_true.2 ⟨c, hc, he⟩) (by simp [h])
      rw [escData_id s.data hall]
  · intro hall
    rw [escape, if_neg]
    simp only [List.any_eq_true, not_exists]
    intro c hc
    simp [hall c hc.1] at hc
  · intro c hce
    have hm : escapeMapJs c = none := by
      cases hm : escapeMapJs c with
      | none => rfl
      | some e => rw [isEntityChar, hm] at hce; simp at hce
    rw [escapeChar, hm]
    rfl

/-- Witness for C2: a clean string is returned unchanged, and a dirty one
is rewritten through the five-entity map. -/
theorem escape_replaces_exactly_five_witness :
    escape "hello" = "hello" ∧ escape "a<b" = String.mk (escData "a<b".data) :=
  ⟨(escape_replaces_exactly_five "hello").2.1 (by decide),
    (escape_replaces_exactly_five "a<b").1⟩

@[simp] theorem render1_str (s : String) :
    render1 (.str s) = .ok (s.data.map String.singleton) := by
  rw [render1]

@[simp] theorem render1_list (l : List Value) : render1 (.list l) = render1List l := by
  rw [render1]

@[simp] theorem render1_iterThen (d : Nat) (l : List Value) (w : Value) :
    render1 (.iterThen d l w) = render1List l := by
  rw [render1]

@[simp] theorem render1_prim (p : String) : render1 (.prim p) = .error .notIterable := by
  rw [render1]

@[simp] theorem render1_thenable (d : Nat) (w : Value) :
    render1 (.thenable d w) = .error .notIterable := by
  rw [render1]

@[simp] theorem render1List_nil : render1List [] = .ok [] := by
  rw [render1List]

@[simp] theorem render1List_cons (c : Value) (cs : List Value) :
    render1List (c :: cs) = do
      let h ← render1Chunk c
      let t ← render1List cs
      return h ++ t := by
  rw [render1List]

@[simp] theorem render1Chunk_str (s : String) : render1Chunk (.str s) = .ok [s] := by
  rw [render1Chunk]

@[simp] theorem render1Chunk_thenable (d : Nat) (w : Value) :
    render1Chunk (.thenable d w) = render1 (awaited w) := by
  rw [render1Chunk, awaited]

@[simp] theorem render1Chunk_iterThen (d : Nat) (l : List Value) (w : Value) :
    render1Chunk (.iterThen d l w) = render1 (awaited w) := by
  rw [render1Chunk, awaited]

@[simp] theorem render1Chunk_list (l : List Value) :
    render1Chunk (.list l) = render1List l := by
  rw [render1Chunk, render1]

@[simp] theorem render1Chunk_prim (p : String) :
    render1Chunk (.prim p) = .error .unsupported := by
  rw [render1Chunk]

@[simp] theorem render2T_run (v : Value) (s : S2) :
    render2T v s =
      if s.err.isSome then s
      else
        match v with
        | .str t => { s with buffer := s.buffer ++ t.data.map String.singleton }
        | .list l => render2L l s
        | .iterThen _ l _ => render2L l s
        | .prim _ => { s with err := some .notIterable }
        | .thenable _ _ => { s with err := some .notIterable } := by
  rw [render2T.eq_def]

@[simp] theorem render2L_nil (s : S2) : render2L [] s = s := by
  rw [render2L]

@[simp] theorem render2L_cons (c : Value) (cs : List Value) (s : S2) :
    render2L (c :: cs) s = render2L cs (render2C c s) := by
  rw [render2L]

@[simp] theorem render2C_run (v : Value) (s : S2) :
    render2C v s =
      if s.err.isSome then s
      else
        match v with
        | .str t => { s with buffer := s.buffer ++ [t] }
        | .list l => render2T (.list l) s
        | .iterThen d l w => render2T (.iterThen d l w) s
        | .thenable _ w =>
          render2Res (awaited w) { flushS s with trace := (flushS s).trace ++ [.await] }
        | .prim _ => { s with err := some .unsupported } := by
  rw [render2C.eq_def]

@[simp] theorem render2Res_str (t : String) (s : S2) :
    render2Res (.str t) s = { s with buffer := s.buffer ++ [t] } := by
  rw [render2Res]

@[simp] theorem render2Res_prim (p : String) (s : S2) :
    render2Res (.prim p) s = render2T (.prim p) s := by
  rw [render2Res]

@[simp] theorem render2Res_list (l : List Value) (s : S2) :
    render2Res (.list l) s = render2T (.list l) s := by
  rw [render2Res]

@[simp] theorem render2Res_thenable (d : Nat) (w : Value) (s : S2) :
    render2Res (.thenable d w) s = render2T (.thenable d w) s := by
  rw [render2Res]

@[simp] theorem render2Res_iterThen (d : Nat) (l : List Value) (w : Value) (s : S2) :
    render2Res (.iterThen d l w) s = render2T (.iterThen d l w) s := by
  rw [render2Res]

@[simp] theorem noAmb_str (s : String) : noAmb (.str s) = true := by rw [noAmb]
@[simp] theorem noAmb_prim (p : String) : noAmb (.prim p) = true := by rw [noAmb]
@[simp] theorem noAmb_list (l : List Value) : noAmb (.list l) = noAmbL l := by rw [noAmb]
@[simp] theorem noAmb_thenable (d : Nat) (w : Value) :
    noAmb (.thenable d w) = noAmb w := by rw [noAmb]
@[simp] theorem noAmb_iterThen (d : Nat) (l : List Value) (w : Value) :
    noAmb (.iterThen d l w) = false := by rw [noAmb]
@[simp] theorem noAmbL_nil : noAmbL [] = true := by rw [noAmbL]
@[simp] theorem noAmbL_cons (c : Value) (cs : List Value) :
    noAmbL (c :: cs) = (noAmb c && noAmbL cs) := by rw [noAmbL]

theorem noAmb_awaited : ∀ w : Value, noAmb w = true → noAmb (awaited w) = true
  | .str s, h => by simpa [awaited] using h
  | .prim p, h => by simpa [awaited] using h
  | .list l, h => by simpa [awaited] using h
  | .thenable d w, h => by
    rw [awaited]
    exact noAmb_awaited w (by simpa using h)
  | .iterThen d l w, h => by simp at h

@[simp] theorem emissions_eq (s : S2) :
    emissions s =
      s.trace.filterMap fun ev =>
        match ev with
        | .emit t => some t
        | .await => none := rfl

theorem flushS_err (s : S2) : (flushS s).err = s.err := by
  rw [flushS]; split_ifs <;> rfl

theorem flushS_buffer (s : S2) : (flushS s).buffer = [] := by
  rw [flushS]; split_ifs <;> rfl

theorem totalText_flushS (s : S2) : totalText (flushS s) = totalText s := by
  rw [flushS]
  split_ifs with h
  · have hb : s.buffer = [] := List.isEmpty_iff.mp h
    simp [totalText, hb]
  · simp [totalText, List.filterMap_append, joinStrs_append, String.append_assoc]

theorem totalText_buffer_push (s : S2) (xs : List String) :
    totalText { s with buffer := s.buffer ++ xs } = totalText s ++ joinStrs xs := by
  simp [totalText, joinStrs_append, String.append_assoc]

theorem joinStrs_map_singleton : ∀ l : List Char,
    joinStrs (l.map String.singleton) = String.mk l
  | [] => rfl
  | c :: cs => by
    rw [List.map_cons, joinStrs_cons, joinStrs_map_singleton cs]
    rfl

@[simp] theorem totalText_await (s : S2) :
    totalText { s with trace := s.trace ++ [.await] } = totalText s := by
  simp [totalText, List.filterMap_append]

mutual

theorem render2T_matches : ∀ (v : Value) (s : S2), noAmb v = true → s.err = none →
    ∀ out, render1 v = .ok out →
    (render2T v s).err = none ∧ totalText (render2T v s) = totalText s ++ joinStrs out
  | .str t, s, hn, hs, out, h => by
    rw [render1_str] at h
    cases h
    have hred : render2T (.str t) s
        = { s with buffer := s.buffer ++ t.data.map String.singleton } := by
      rw [render2T_run]; simp [hs]
    rw [hred]
    exact ⟨by simpa using hs, by rw [totalText_buffer_push]⟩
  | .list l, s, hn, hs, out, h => by
    rw [render1_list] at h
    have hred : render2T (.list l) s = render2L l s := by
      rw [render2T_run]; simp [hs]
    rw [hred]
    exact render2L_matches l s (by simpa using hn) hs out h
  | .iterThen d l w, s, hn, hs, out, h => by simp at hn
  | .prim p, s, hn, hs, out, h => by rw [render1_prim] at h; exact Except.noConfusion h
  | .thenable d w, s, hn, hs, out, h => by
    rw [render1_thenable] at h; exact Except.noConfusion h
termination_by v s hn hs out h => (sizeOf v, 1)
decreasing_by
  all_goals simp_wf
  all_goals apply Prod.Lex.left
  all_goals try simp
  all_goals omega

theorem render2L_matches : ∀ (l : List Value) (s : S2), noAmbL l = true → s.err = none →
    ∀ out, render1List l = .ok out →
    (render2L l s).err = none ∧ totalText (render2L l s) = totalText s ++ joinStrs out
  | [], s, hn, hs, out, h => by
    rw [render1List_nil] at h
    cases h
    rw [render2L_nil]
    exact ⟨hs, by simp⟩
  | c :: cs, s, hn, hs, out, h => by
    rw [render1List_cons] at h
    have hnc : noAmb c = true ∧ noAmbL cs = true := by simpa using hn
    cases hc : render1Chunk c with
    | error e => rw [hc] at h; exact Except.noConfusion h
    | ok o1 =>
      cases ht : render1List cs with
      | error e => rw [hc, ht] at h; exact Except.noConfusion h
      | ok o2 =>
        rw [hc, ht] at h
        replace h : Except.ok (o1 ++ o2) = Except.ok out := h
        cases h
        have h1 := render2C_matches c s hnc.1 hs o1 hc
        have h2 := render2L_matches cs (render2C c s) hnc.2 h1.1 o2 ht
        rw [render2L_cons]
        exact ⟨h2.1, by rw [h2.2, h1.2, joinStrs_append, String.append_assoc]⟩
termination_by l s hn hs out h => (sizeOf l, 0)
decreasing_by
  all_goals simp_wf
  all_goals apply Prod.Lex.left
  all_goals try simp
  all_goals omega

theorem render2C_matches : ∀ (v : Value) (s : S2), noAmb v = true → s.err = none →
    ∀ out, render1Chunk v = .ok out →
    (render2C v s).err = none ∧ totalText (render2C v s) = totalText s ++ joinStrs out
  | .str t, s, hn, hs, out, h => by
    rw [render1Chunk_str] at h
    cases h
    have hred : render2C (.str t) s = { s with buffer := s.buffer ++ [t] } := by
      rw [render2C_run]; simp [hs]
    rw [hred]
    exact ⟨by simpa using hs, by rw [totalText_buffer_push]⟩
  | .thenable d w, s, hn, hs, out, h => by
    rw [render1Chunk_thenable] at h
    have hnw : noAmb (awaited w) = true := noAmb_awaited w (by simpa using hn)
    have hs2err : ({ flushS s with trace := (flushS s).trace ++ [.await] } : S2).err = none := by
      simp [flushS_err, hs]
    have hres := render2Res_matches (awaited w)
      { flushS s with trace := (flushS s).trace ++ [.await] } hnw hs2err out h
    have hred : render2C (.thenable d w) s
        = render2Res (awaited w) { flushS s with trace := (flushS s).trace ++ [.await] } := by
      rw [render2C_run]; simp [hs]
    rw [hred]
    refine ⟨hres.1, ?_⟩
    rw [hres.2]
    have : totalText { flushS s with trace := (flushS s).trace ++ [.await] }
        = totalText (flushS s) := totalText_await (flushS s)
    rw [this, totalText_flushS]
  | .iterThen d l w, s, hn, hs, out, h => by simp at hn
  | .list l, s, hn, hs, out, h => by
    rw [render1Chunk_list] at h
    have hred : render2C (.list l) s = render2T (.list l) s := by
      rw [render2C_run]; simp [hs]
    rw [hred]
    exact render2T_matches (.list l) s hn hs out (by rw [render1_list]; exact h)
  | .prim p, s, hn, hs, out, h => by
    rw [render1Chunk_prim] at h; exact Except.noConfusion h
termination_by v s hn hs out h => (sizeOf v, 3)
decreasing_by
  all_goals simp_wf
  all_goals first
    | (apply Prod.Lex.right; omega)
    | (apply Prod.Lex.left; have := sizeOf_awaited_le w; simp; omega)

theorem render2Res_matches : ∀ (v : Value) (s : S2), noAmb v = true → s.err = none →
    ∀ out, render1 v = .ok out →
    (render2Res v s).err = none ∧ totalText (render2Res v s) = totalText s ++ joinStrs out
  | .str t, s, hn, hs, out, h => by
    rw [render1_str] at h
    cases h
    rw [render2Res_str]
    refine ⟨by simpa using hs, ?_⟩
    rw [totalText_buffer_push, joinStrs_map_singleton]
    simp
  | .prim p, s, hn, hs, out, h => by rw [render1_prim] at h; exact Except.noConfusion h
  | .thenable d w, s, hn, hs, out, h => by
    rw [render1_thenable] at h; exact Except.noConfusion h
  | .iterThen d l w, s, hn, hs, out, h => by simp at hn
  | .list l, s, hn, hs, out, h => by
    rw [render2Res_list]
    exact render2T_matches (.list l) s hn hs out h
termination_by v s hn hs out h => (sizeOf v, 2)
decreasing_by
  all_goals simp_wf
  all_goals apply Prod.Lex.right
  all_goals omega

end

/-- On any unambiguous value accepted by the part-1 renderer, the part-2
buffered renderer succeeds and its emitted text concatenates to the same
string, for every sink capacity. -/
theorem render2_text_eq_render1 (k : Nat) (v : Value) (hn : noAmb v = true)
    (out : List String) (h : render1 v = .ok out) :
    (render2 k v).err = none ∧ joinStrs (emissions (render2 k v)) = joinStrs out := by
  have hm := render2T_matches v ⟨[], [], k, none⟩ hn rfl out h
  have h1 : render2 k v = flushS (render2T v ⟨[], [], k, none⟩) := by
    rw [render2]
    simp only [hm.1, Option.isSome_none, Bool.false_eq_true, if_false]
  constructor
  · rw [h1, flushS_err]; exact hm.1
  · have h2 : totalText (flushS (render2T v ⟨[], [], k, none⟩))
        = joinStrs (emissions (flushS (render2T v ⟨[], [], k, none⟩))) := by
      rw [totalText, flushS_buffer]
      simp
    rw [h1, ← h2, totalText_flushS, hm.2]
    simp [totalText]

/-- C10 counterexample: a fragment exposing both the iterator and the
`then` capability is a supported fragment (both renderers accept it), but
the part-1 loop checks `then` first and awaits it, while the part-2 loop
checks the iterator first and iterates it: the two renderers succeed with
different texts on the same template. -/
theorem render2_vs_render1_counterexample :
    render1 (.list [.iterThen 0 [.str "a"] (.str "b")]) = .ok ["b"]
    ∧ (render2 9 (.list [.iterThen 0 [.str "a"] (.str "b")])).err = none
    ∧ joinStrs (emissions (render2 9 (.list [.iterThen 0 [.str "a"] (.str "b")]))) = "a"
    ∧ ("a" : String) ≠ "b" := by
  refine ⟨?_, ?_, ?_, by decide⟩
  · simp [awaited]
    rfl
  · simp [render2, awaited, flushS]
  · simp [render2, awaited, flushS, emissions, joinStrs]

/-- C10 (amended): on every template none of whose fragments carries both
the iterator and the `then` capability, if the part-1 async-generator
renderer succeeds then the part-2 buffered coroutine renderer succeeds
and emits the same concatenated text, whatever the sink capacity. -/
theorem render2_text_matches_render1 (k : Nat) (v : Value) (hn : noAmb v = true)
    (out : List String) (h : render1 v = .ok out) :
    (render2 k v).err = none ∧ joinStrs (emissions (render2 k v)) = joinStrs out :=
  render2_text_eq_render1 k v hn out h

/-- Witness for the amended C10 at a concrete template. -/
theorem render2_text_matches_render1_witness :
    (render2 1 (.list [.str "A", .thenable 0 (.str "X"), .str "B"])).err = none
    ∧ joinStrs (emissions (render2 1 (.list [.str "A", .thenable 0 (.str "X"), .str "B"])))
        = joinStrs ["A", "X", "B"] :=
  render2_text_matches_render1 1 (.list [.str "A", .thenable 0 (.str "X"), .str "B"])
    (by simp) ["A", "X", "B"] (by simp [awaited]; rfl)

@[simp] theorem retime_str (f : Nat → Nat) (s : String) :
    retime f (.str s) = .str s := by rw [retime]
@[simp] theorem retime_prim (f : Nat → Nat) (p : String) :
    retime f (.prim p) = .prim p := by rw [retime]
@[simp] theorem retime_list (f : Nat → Nat) (l : List Value) :
    retime f (.list l) = .list (retimeL f l) := by rw [retime]
@[simp] theorem retime_thenable (f : Nat → Nat) (d : Nat) (w : Value) :
    retime f (.thenable d w) = .thenable (f d) (retime f w) := by rw [retime]
@[simp] theorem retime_iterThen (f : Nat → Nat) (d : Nat) (l : List Value) (w : Value) :
    retime f (.iterThen d l w) = .iterThen (f d) (retimeL f l) (retime f w) := by rw [retime]
@[simp] theorem retimeL_nil (f : Nat → Nat) : retimeL f [] = [] := by rw [retimeL]
@[simp] theorem retimeL_cons (f : Nat → Nat) (c : Value) (cs : List Value) :
    retimeL f (c :: cs) = retime f c :: retimeL f cs := by rw [retimeL]

theorem awaited_retime (f : Nat → Nat) : ∀ w : Value,
    awaited (retime f w) = retime f (awaited w)
  | .str s => by simp [awaited]
  | .prim p => by simp [awaited]
  | .list l => by simp [awaited]
  | .thenable d w => by
    rw [retime_thenable]
    show awaited (retime f w) = retime f (awaited w)
    exact awaited_retime f w
  | .iterThen d l w => by
    rw [retime_iterThen]
    show awaited (retime f w) = retime f (awaited w)
    exact awaited_retime f w

mutual

theorem retime_render2T : ∀ (v : Value) (f : Nat → Nat) (s : S2),
    render2T (retime f v) s = render2T v s
  | .str t, f, s => by rw [retime_str]
  | .prim p, f, s => by rw [retime_prim]
  | .list l, f, s => by
    have hL := retime_render2L l f s
    rw [retime_list, render2T_run, render2T_run]
    by_cases hs : s.err.isSome = true
    · rw [if_pos hs, if_pos hs]
    · rw [if_neg hs, if_neg hs]
      exact hL
  | .thenable d w, f, s => by
    rw [retime_thenable, render2T_run, render2T_run]
  | .iterThen d l w, f, s => by
    have hL := retime_render2L l f s
    rw [retime_iterThen, render2T_run, render2T_run]
    by_cases hs : s.err.isSome = true
    · rw [if_pos hs, if_pos hs]
    · rw [if_neg hs, if_neg hs]
      exact hL
termination_by v f s => (sizeOf v, 1)
decreasing_by
  all_goals simp_wf
  all_goals apply Prod.Lex.left
  all_goals try simp
  all_goals omega

theorem retime_render2L : ∀ (l : List Value) (f : Nat → Nat) (s : S2),
    render2L (retimeL f l) s = render2L l s
  | [], f, s => by rw [retimeL_nil]
  | c :: cs, f, s => by
    rw [retimeL_cons, render2L_cons, render2L_cons, retime_render2C c f s,
      retime_render2L cs f (render2C c s)]
termination_by l f s => (sizeOf l, 0)
decreasing_by
  all_goals simp_wf
  all_goals apply Prod.Lex.left
  all_goals try simp
  all_goals omega

theorem retime_render2C : ∀ (v : Value) (f : Nat → Nat) (s : S2),
    render2C (retime f v) s = render2C v s
  | .str t, f, s => by rw [retime_str]
  | .prim p, f, s => by rw [retime_prim]
  | .list l, f, s => by
    have hT : render2T (retime f (.list l)) s = render2T (.list l) s :=
      retime_render2T (.list l) f s
    rw [retime_list] at hT
    rw [retime_list, render2C_run, render2C_run]
    by_cases hs : s.err.isSome = true
    · rw [if_pos hs, if_pos hs]
    · rw [if_neg hs, if_neg hs]
      exact hT
  | .thenable d w, f, s => by
    have hR := retime_render2Res (awaited w) f
      { flushS s with trace := (flushS s).trace ++ [.await] }
    rw [retime_thenable, render2C_run, render2C_run]
    by_cases hs : s.err.isSome = true
    · rw [if_pos hs, if_pos hs]
    · rw [if_neg hs, if_neg hs]
      show render2Res (awaited (retime f w)) _ = render2Res (awaited w) _
      rw [awaited_retime f w]
      exact hR
  | .iterThen d l w, f, s => by
    have hT : render2T (retime f (.iterThen d l w)) s = render2T (.iterThen d l w) s :=
      retime_render2T (.iterThen d l w) f s
    rw [retime_iterThen] at hT
    rw [retime_iterThen, render2C_run, render2C_run]
    by_cases hs : s.err.isSome = true
    · rw [if_pos hs, if_pos hs]
    · rw [if_neg hs, if_neg hs]
      exact hT
termination_by v f s => (sizeOf v, 3)
decreasing_by
  all_goals simp_wf
  all_goals first
    | (apply Prod.Lex.right; omega)
    | (apply Prod.Lex.left; have := sizeOf_awaited_le w; simp; omega)

theorem retime_render2Res : ∀ (v : Value) (f : Nat → Nat) (s : S2),
    render2Res (retime f v) s = render2Res v s
  | .str t, f, s => by rw [retime_str]
  | .prim p, f, s => by rw [retime_prim]
  | .list l, f, s => by
    rw [retime_list, render2Res_list, render2Res_list, ← retime_list f l,
      retime_render2T (.list l) f s]
  | .thenable d w, f, s => by
    rw [retime_thenable, render2Res_thenable, render2Res_thenable,
      ← retime_thenable f d w, retime_render2T (.thenable d w) f s]
  | .iterThen d l w, f, s => by
    rw [retime_iterThen, render2Res_iterThen, render2Res_iterThen,
      ← retime_iterThen f d l w, retime_render2T (.iterThen d l w) f s]
termination_by v f s => (sizeOf v, 2)
decreasing_by
  all_goals simp_wf
  all_goals apply Prod.Lex.right
  all_goals omega

end

/-- C5: for every fragment tree and every change of the deferred values'
resolution delays, the part-2 renderer reaches exactly the same final
state — the same emission attempts in the same order, the same awaits,
the same error — and on success (for trees with no doubly-capable
fragment) the emitted text is the depth-first, left-to-right text of the
tree, in the order the part-1 reference renderer yields it; in
particular an earlier deferred's content is never emitted after a later
one's, however the delays compare. -/
theorem render2_order_independent_of_timing (v : Value) (f : Nat → Nat) (k : Nat) :
    render2 k (retime f v) = render2 k v
    ∧ (∀ out, noAmb v = true → render1 v = .ok out →
        joinStrs (emissions (render2 k v)) = joinStrs out) := by
  constructor
  · simp only [render2, retime_render2T]
  · intro out hn h
    exact (render2_text_eq_render1 k v hn out h).2

/-- Witness for C5: two deferreds whose delays are swapped (the later one
resolving first) produce the identical render, with the declared order. -/
theorem render2_order_independent_of_timing_witness :
    render2 2 (retime (fun d => 5 - d)
        (.list [.str "A", .thenable 1 (.str "X"), .str "B", .thenable 4 (.str "Y"), .str "C"]))
      = render2 2
        (.list [.str "A", .thenable 1 (.str "X"), .str "B", .thenable 4 (.str "Y"), .str "C"])
    ∧ joinStrs (emissions (render2 2
        (.list [.str "A", .thenable 1 (.str "X"), .str "B", .thenable 4 (.str "Y"), .str "C"])))
      = joinStrs ["A", "X", "B", "Y", "C"] :=
  ⟨(render2_order_independent_of_timing
      (.list [.str "A", .thenable 1 (.str "X"), .str "B", .thenable 4 (.str "Y"), .str "C"])
      (fun d => 5 - d) 2).1,
    (render2_order_independent_of_timing
      (.list [.str "A", .thenable 1 (.str "X"), .str "B", .thenable 4 (.str "Y"), .str "C"])
      (fun d => 5 - d) 2).2 ["A", "X", "B", "Y", "C"] (by simp) (by simp [awaited]; rfl)⟩

/-- C6 counterexample: two deferreds, the second of which is encountered
with an empty buffer (the outer deferred resolved to an array that opens
with another deferred), produce only 2 emissions, not
`1 + number_of_Deferred = 3`: the flush before a deferred is skipped when
the buffer is empty. -/
theorem emission_count_counterexample :
    emissions (render2 9 (.list [.str "A",
        .thenable 0 (.list [.thenable 0 (.str "X"), .str "t"]), .str "B"])) = ["A", "XtB"]
    ∧ awaitCount (render2 9 (.list [.str "A",
        .thenable 0 (.list [.thenable 0 (.str "X"), .str "t"]), .str "B"])) = 2
    ∧ (emissions (render2 9 (.list [.str "A",
        .thenable 0 (.list [.thenable 0 (.str "X"), .str "t"]), .str "B"]))).length
      ≠ 1 + awaitCount (render2 9 (.list [.str "A",
        .thenable 0 (.list [.thenable 0 (.str "X"), .str "t"]), .str "B"])) := by
  refine ⟨?_, ?_, ?_⟩ <;>
    simp [render2, awaited, flushS, emissions, awaitCount, joinStrs]

/-- C6 (amended): for a template `S0 ${p} S1` whose single deferred
resolves to a string, the buffered renderer performs exactly
`1 + 1 = 2` emissions, `[S0, X ++ S1]`, whatever the strings and the sink
capacity; the general count `1 + number_of_Deferred` requires the buffer
to be non-empty at each deferred encounter (and at completion), which
consecutive deferreds with no intervening text violate. -/
theorem buffered_emission_count (p0 p1 X : String) (d k : Nat) :
    emissions (render2 k (.list (html [p0, p1] [.thenable d (.str X)]))) = [p0, X ++ p1]
    ∧ awaitCount (render2 k (.list (html [p0, p1] [.thenable d (.str X)]))) = 1 := by
  constructor <;>
    simp [render2, awaited, flushS, emissions, awaitCount, html, classifyChunks,
      hasIterator, isStringV, hasThen, joinStrs]

/-- C4 counterexample: a deferred resolving to the string `"<b>"` is
emitted raw by the renderer — escaping is not applied at resolution
time (only directly interpolated non-thenable, non-iterable values are
escaped, when they enter the sequence). -/
theorem deferred_string_not_escaped_counterexample :
    html ["", ""] [.thenable 0 (.str "<b>")] = [.str "", .thenable 0 (.str "<b>"), .str ""]
    ∧ joinStrs (emissions (render2 9 (.list (html ["", ""] [.thenable 0 (.str "<b>")]))))
        = "<b>"
    ∧ escape "<b>" = "&lt;b&gt;"
    ∧ ("<b>" : String) ≠ "&lt;b&gt;" := by
  refine ⟨?_, ?_, by decide, by decide⟩
  · simp [html, classifyChunks, hasIterator, isStringV, hasThen]
  · simp [render2, awaited, flushS, emissions, html, classifyChunks,
      hasIterator, isStringV, hasThen, joinStrs]

/-- C4 (amended): a thenable interpolated value is yielded unescaped and
as-is as a deferred, and when it resolves to a string that string is
emitted as-is, without escaping ever being applied to it. -/
theorem deferred_yielded_as_is_resolved_unescaped (p0 p1 X : String) (d k : Nat) :
    html [p0, p1] [.thenable d (.str X)] = [.str p0, .thenable d (.str X), .str p1]
    ∧ joinStrs (emissions (render2 k (.list (html [p0, p1] [.thenable d (.str X)]))))
        = p0 ++ (X ++ p1) := by
  constructor
  · simp [html, classifyChunks, hasIterator, isStringV, hasThen]
  · simp [render2, awaited, flushS, emissions, html, classifyChunks,
      hasIterator, isStringV, hasThen, joinStrs]

@[simp] theorem except_ok_bind {α β ε : Type} (a : α) (f : α → Except ε β) :
    (Except.ok a >>= f) = f a := rfl
@[simp] theorem except_error_bind {α β ε : Type} (e : ε) (f : α → Except ε β) :
    ((Except.error e : Except ε α) >>= f) = .error e := rfl
@[simp] theorem except_ok_map {α β ε : Type} (a : α) (f : α → β) :
    (Except.ok a : Except ε α).map f = .ok (f a) := rfl
@[simp] theorem except_error_map {α β ε : Type} (e : ε) (f : α → β) :
    (Except.error e : Except ε α).map f = .error e := rfl
@[simp] theorem except_ok_bindF {α β ε : Type} (a : α) (f : α → Except ε β) :
    (Except.ok a : Except ε α).bind f = f a := rfl
@[simp] theorem except_error_bindF {α β ε : Type} (e : ε) (f : α → Except ε β) :
    (Except.error e : Except ε α).bind f = .error e := rfl

/-! ## Claim C7: unsupported chunks are fatal -/

theorem render2T_err_some (v : Value) (s : S2) (h : s.err.isSome = true) :
    render2T v s = s := by
  rw [render2T_run, if_pos h]

theorem render2C_err_some (v : Value) (s : S2) (h : s.err.isSome = true) :
    render2C v s = s := by
  rw [render2C_run, if_pos h]

theorem render2L_err_some (l : List Value) (s : S2) (h : s.err.isSome = true) :
    render2L l s = s := by
  induction l with
  | nil => rw [render2L_nil]
  | cons c cs ih => rw [render2L_cons, render2C_err_some c s h, ih]

/-- C7: a chunk that is none of string/iterable/thenable — e.g. a bare
number inside an interpolated array — makes both renderers throw the
explicit `Unsupported chunk` error instead of stringifying it; once the
error is raised nothing further is processed, and the failed render's
emissions are exactly those attempted before the failure (the pending
buffer is not flushed).  Concretely, interpolating `[1, 2, 3]` aborts
with no output. -/
theorem unsupported_chunk_aborts :
    (∀ p, render1Chunk (.prim p) = .error .unsupported)
    ∧ (∀ p s, s.err = none → render2C (.prim p) s = { s with err := some .unsupported })
    ∧ (∀ v s, s.err.isSome = true → render2T v s = s ∧ render2C v s = s)
    ∧ (∀ l s, s.err.isSome = true → render2L l s = s)
    ∧ (∀ k v, (render2 k v).err.isSome = true →
        (render2 k v).trace = (render2T v ⟨[], [], k, none⟩).trace)
    ∧ render1 (.list (html ["", ""] [.list [.prim "1", .prim "2", .prim "3"]]))
        = .error .unsupported
    ∧ (render2 9 (.list (html ["", ""] [.list [.prim "1", .prim "2", .prim "3"]]))).err
        = some .unsupported
    ∧ emissions (render2 9 (.list (html ["", ""] [.list [.prim "1", .prim "2", .prim "3"]])))
        = [] := by
  refine ⟨fun p => render1Chunk_prim p, ?_, fun v s h => ⟨render2T_err_some v s h,
    render2C_err_some v s h⟩, fun l s h => render2L_err_some l s h, ?_, ?_, ?_, ?_⟩
  · intro p s h
    rw [render2C_run]
    simp [h]
  · intro k v h
    rw [render2] at h ⊢
    by_cases h1 : (render2T v ⟨[], [], k, none⟩).err.isSome = true
    · simp only [h1, if_true]
    · simp only [h1, Bool.false_eq_true, if_false] at h
      rw [flushS_err] at h
      exact absurd h (by simpa using h1)
  · simp [html, classifyChunks, hasIterator, isStringV, hasThen, iterElems]
  · simp [render2, flushS, html, classifyChunks, hasIterator, isStringV, hasThen, iterElems]
  · simp [render2, flushS, emissions, html, classifyChunks, hasIterator, isStringV,
      hasThen, iterElems]

/-- Witness for C7: a bare number chunk fails the part-2 loop body at a
concrete state, leaving the state otherwise untouched. -/
theorem unsupported_chunk_aborts_witness :
    render1Chunk (.prim "42") = .error .unsupported
    ∧ render2C (.prim "42") ⟨["A"], [], 3, none⟩ = ⟨["A"], [], 3, some .unsupported⟩ :=
  ⟨unsupported_chunk_aborts.1 "42",
    unsupported_chunk_aborts.2.1 "42" ⟨["A"], [], 3, none⟩ rfl⟩

/-! ## Claim C8: array-contained strings bypass escaping -/

theorem render1List_strs : ∀ xs : List String, render1List (xs.map .str) = .ok xs
  | [] => by rw [List.map_nil, render1List_nil]
  | x :: xs => by
    rw [List.map_cons, render1List_cons, render1Chunk_str, render1List_strs xs]
    rfl

/-- C8: the strings of an interpolated array reach the output concatenated
in declaration order with no escaping, while a directly interpolated
string is escaped. -/
theorem array_strings_unescaped (p0 p1 s : String) (xs : List String) :
    render1 (.list (html [p0, p1] [.list (xs.map .str)])) = .ok (p0 :: (xs ++ [p1]))
    ∧ render1 (.list (html [p0, p1] [.str s])) = .ok [p0, escape s, p1] := by
  constructor
  · have h1 : html [p0, p1] [.list (xs.map .str)]
        = .str p0 :: (xs.map .str ++ [.str p1]) := by
      simp [html, classifyChunks, hasIterator, isStringV, hasThen, iterElems]
    have h2 : xs.map Value.str ++ [Value.str p1] = (xs ++ [p1]).map Value.str := by
      simp
    rw [h1, render1_list, render1List_cons, render1Chunk_str, h2, render1List_strs]
    rfl
  · have h1 : html [p0, p1] [.str s] = [.str p0, .str (escape s), .str p1] := by
      simp [html, classifyChunks, hasIterator, isStringV, hasThen, jsString]
    rw [h1, render1_list]
    simp

theorem eqNoSink_flushS (s1 s2 : S2) (h : eqNoSink s1 s2) :
    eqNoSink (flushS s1) (flushS s2) := by
  obtain ⟨hb, ht, he⟩ := h
  rw [flushS, flushS, hb]
  by_cases hbe : s2.buffer.isEmpty
  · rw [if_pos hbe, if_pos hbe]
    exact ⟨rfl, ht, he⟩
  · rw [if_neg hbe, if_neg hbe]
    exact ⟨rfl, by rw [ht], he⟩

mutual

theorem sink_oblivious_T : ∀ (v : Value) (s1 s2 : S2), eqNoSink s1 s2 →
    eqNoSink (render2T v s1) (render2T v s2)
  | v, s1, s2, h => by
    obtain ⟨hb, ht, he⟩ := h
    rw [render2T_run, render2T_run, he]
    by_cases hs : s2.err.isSome = true
    · rw [if_pos hs, if_pos hs]
      exact ⟨hb, ht, he⟩
    · rw [if_neg hs, if_neg hs]
      match v with
      | .str t => exact ⟨by rw [hb], ht, rfl⟩
      | .list l => exact sink_oblivious_L l s1 s2 ⟨hb, ht, he⟩
      | .iterThen d l w => exact sink_oblivious_L l s1 s2 ⟨hb, ht, he⟩
      | .prim p => exact ⟨hb, ht, rfl⟩
      | .thenable d w => exact ⟨hb, ht, rfl⟩
termination_by v s1 s2 h => (sizeOf v, 1)
decreasing_by
  all_goals simp_wf
  all_goals apply Prod.Lex.left
  all_goals try simp
  all_goals omega

theorem sink_oblivious_L : ∀ (l : List Value) (s1 s2 : S2), eqNoSink s1 s2 →
    eqNoSink (render2L l s1) (render2L l s2)
  | [], s1, s2, h => by rw [render2L_nil, render2L_nil]; exact h
  | c :: cs, s1, s2, h => by
    rw [render2L_cons, render2L_cons]
    exact sink_oblivious_L cs _ _ (sink_oblivious_C c s1 s2 h)
termination_by l s1 s2 h => (sizeOf l, 0)
decreasing_by
  all_goals simp_wf
  all_goals apply Prod.Lex.left
  all_goals try simp
  all_goals omega

theorem sink_oblivious_C : ∀ (v : Value) (s1 s2 : S2), eqNoSink s1 s2 →
    eqNoSink (render2C v s1) (render2C v s2)
  | v, s1, s2, h => by
    obtain ⟨hb, ht, he⟩ := h
    rw [render2C_run, render2C_run, he]
    by_cases hs : s2.err.isSome = true
    · rw [if_pos hs, if_pos hs]
      exact ⟨hb, ht, he⟩
    · rw [if_neg hs, if_neg hs]
      match v with
      | .str t => exact ⟨by rw [hb], ht, rfl⟩
      | .list l => exact sink_oblivious_T (.list l) s1 s2 ⟨hb, ht, he⟩
      | .iterThen d l w => exact sink_oblivious_T (.iterThen d l w) s1 s2 ⟨hb, ht, he⟩
      | .thenable d w =>
        refine sink_oblivious_Res (awaited w) _ _ ?_
        have hf := eqNoSink_flushS s1 s2 ⟨hb, ht, he⟩
        exact ⟨hf.1, by rw [hf.2.1], hf.2.2⟩
      | .prim p => exact ⟨hb, ht, rfl⟩
termination_by v s1 s2 h => (sizeOf v, 3)
decreasing_by
  all_goals simp_wf
  all_goals first
    | (apply Prod.Lex.right; omega)
    | (apply Prod.Lex.left; have := sizeOf_awaited_le w; simp; omega)

theorem sink_oblivious_Res : ∀ (v : Value) (s1 s2 : S2), eqNoSink s1 s2 →
    eqNoSink (render2Res v s1) (render2Res v s2)
  | .str t, s1, s2, h => by
    rw [render2Res_str, render2Res_str]
    exact ⟨by simp [h.1], h.2.1, h.2.2⟩
  | .prim p, s1, s2, h => by
    rw [render2Res_prim, render2Res_prim]
    exact sink_oblivious_T (.prim p) s1 s2 h
  | .list l, s1, s2, h => by
    rw [render2Res_list, render2Res_list]
    exact sink_oblivious_T (.list l) s1 s2 h
  | .thenable d w, s1, s2, h => by
    rw [render2Res_thenable, render2Res_thenable]
    exact sink_oblivious_T (.thenable d w) s1 s2 h
  | .iterThen d l w, s1, s2, h => by
    rw [render2Res_iterThen, render2Res_iterThen]
    exact sink_oblivious_T (.iterThen d l w) s1 s2 h
termination_by v s1 s2 h => (sizeOf v, 2)
decreasing_by
  all_goals simp_wf
  all_goals apply Prod.Lex.right
  all_goals omega

end

/-- C9 counterexample: with a sink that accepts a single chunk (capacity
1, exhausted at the first emission), the renderer still awaits the two
deferreds and attempts two further emissions: it does not stop pulling
fragments or resolving pending deferreds when the sink signals it can
accept no more. -/
theorem render_pulls_after_sink_stop :
    (render2 1 (.list [.str "A", .thenable 0 (.str "X"), .str "B",
        .thenable 0 (.str "Y"), .str "C"])).trace
      = [.emit "A", .await, .emit "XB", .await, .emit "YC"]
    ∧ (render2 1 (.list [.str "A", .thenable 0 (.str "X"), .str "B",
        .thenable 0 (.str "Y"), .str "C"])).sink = 0
    ∧ awaitCount (render2 1 (.list [.str "A", .thenable 0 (.str "X"), .str "B",
        .thenable 0 (.str "Y"), .str "C"])) = 2 := by
  refine ⟨?_, ?_, ?_⟩ <;>
    simp [render2, awaited, flushS, awaitCount, joinStrs]

/-- C9 (amended): the rendering code has no cancellation path at all: the
sink capacity is never consulted, so the pulls, awaits and emission
attempts (the whole event trace) and the error outcome are identical for
every sink capacity — the renderer never stops early on backpressure. -/
theorem render_ignores_sink_signal (v : Value) (k1 k2 : Nat) :
    (render2 k1 v).trace = (render2 k2 v).trace
    ∧ (render2 k1 v).err = (render2 k2 v).err := by
  have h := sink_oblivious_T v ⟨[], [], k1, none⟩ ⟨[], [], k2, none⟩ ⟨rfl, rfl, rfl⟩
  rw [render2, render2]
  simp only [h.2.2]
  by_cases hs : (render2T v ⟨[], [], k2, none⟩).err.isSome = true
  · rw [if_pos hs, if_pos hs]
    exact ⟨h.2.1, h.2.2⟩
  · rw [if_neg hs, if_neg hs]
    have hf := eqNoSink_flushS _ _ h
    exact ⟨hf.2.1, hf.2.2⟩

@[simp] theorem planFrom_nil (cur : List Piece) (i : Nat) :
    planFrom cur [] i = [.yieldConcat cur] := rfl

theorem planFrom_cons (cur : List Piece) (p : String) (v : Value)
    (rest : List (String × Value)) (i : Nat) :
    planFrom cur ((p, v) :: rest) i =
      if hasIterator v && !isStringV v then
        .yieldConcat cur :: .yieldStar i :: planFrom [.text p] rest (i + 1)
      else if isAsync v then
        .yieldConcat cur :: .yieldVal i :: planFrom [.text p] rest (i + 1)
      else
        planFrom (cur ++ [.slot i, .text p]) rest (i + 1) := rfl

theorem slotKind_zero (v : Value) :
    slotKind v = 0 ↔ (hasIterator v && !isStringV v) = true := by
  rw [slotKind]
  split_ifs with h1 h2 <;> simp_all

theorem slotKind_one (v : Value) :
    slotKind v = 1 ↔ ((hasIterator v && !isStringV v) = false ∧ isAsync v = true) := by
  rw [slotKind]
  split_ifs with h1 h2 <;> simp_all

theorem rtext_cons (c : Value) (Z : List Value) :
    rtext (c :: Z) =
      (render1Chunk c).bind fun o => (rtext Z).map fun t => joinStrs o ++ t := by
  rw [rtext, render1List_cons]
  cases hc : render1Chunk c with
  | error e => simp
  | ok o =>
    cases hz : render1List Z with
    | error e => simp [rtext, hz]
    | ok t => simp [rtext, hz, joinStrs_append]

theorem rtext_str_cons (t : String) (Z : List Value) :
    rtext (.str t :: Z) = (rtext Z).map fun r => t ++ r := by
  rw [rtext_cons, render1Chunk_str]
  cases hz : rtext Z <;> simp

theorem rtext_append_congr (X Y1 Y2 : List Value) (h : rtext Y1 = rtext Y2) :
    rtext (X ++ Y1) = rtext (X ++ Y2) := by
  induction X with
  | nil => simpa using h
  | cons c cs ih =>
    rw [List.cons_append, List.cons_append, rtext_cons, rtext_cons, ih]

theorem slotKind_two (v : Value) :
    slotKind v = 2 ↔ ((hasIterator v && !isStringV v) = false ∧ isAsync v = false) := by
  rw [slotKind]
  split_ifs with h1 h2 <;> simp_all

/-- Running the compiled plan built from compile-time values `cv` on
call-time arguments (looked up in `A` from base index `n`) renders the
same text as the naive sequencer applied to the call-time values `rv`,
provided each slot's call-time value selects the same `buildSource`
branch as its compile-time value. -/
theorem planFrom_run (A : List Value) :
    ∀ (ps : List String) (cv rv : List Value) (n : Nat) (cur : List Piece),
      ps.length = cv.length → cv.length = rv.length →
      (∀ k, k < rv.length →
        A.getD (n + k) (.prim "undefined") = rv.getD k (.prim "undefined")) →
      (∀ k, k < cv.length →
        slotKind (cv.getD k (.prim "undefined")) = slotKind (rv.getD k (.prim "undefined"))) →
      rtext ((planFrom cur (jsZip ps cv) n).flatMap (runStmt A))
        = rtext (.str (joinStrs (cur.map (pieceVal A)))
            :: (jsZip ps rv).flatMap fun pv => classifyChunks pv.2 ++ [.str pv.1])
  | [], cv, rv, n, cur, h1, h2, hA, hk => by
    cases cv with
    | cons c cv2 => simp at h1
    | nil =>
      cases rv with
      | cons r rv2 => simp at h2
      | nil => simp [runStmt]
  | p :: ps2, cv, rv, n, cur, h1, h2, hA, hk => by
    cases cv with
    | nil => simp at h1
    | cons c cv2 =>
      cases rv with
      | nil => simp at h2
      | cons r rv2 =>
        have hlen1 : ps2.length = cv2.length := by simpa using h1
        have hlen2 : cv2.length = rv2.length := by simpa using h2
        have hr0 : A.getD n (.prim "undefined") = r := by
          simpa using hA 0 (by simp)
        have hk0 : slotKind c = slotKind r := by
          simpa using hk 0 (by simp)
        have hA2 : ∀ k, k < rv2.length →
            A.getD (n + 1 + k) (.prim "undefined") = rv2.getD k (.prim "undefined") := by
          intro k hlt
          have h := hA (k + 1) (by simpa using Nat.succ_lt_succ hlt)
          have he : n + (k + 1) = n + 1 + k := by omega
          rw [he, List.getD_cons_succ] at h
          exact h
        have hk2 : ∀ k, k < cv2.length →
            slotKind (cv2.getD k (.prim "undefined"))
              = slotKind (rv2.getD k (.prim "undefined")) := by
          intro k hlt
          have h := hk (k + 1) (by simpa using Nat.succ_lt_succ hlt)
          rw [List.getD_cons_succ, List.getD_cons_succ] at h
          exact h
        have IH := planFrom_run A ps2 cv2 rv2 (n + 1) [.text p] hlen1 hlen2 hA2 hk2
        simp only [List.map_cons, List.map_nil, pieceVal, joinStrs_cons, joinStrs_nil,
          String.append_empty] at IH
        by_cases hb1 : (hasIterator c && !isStringV c) = true
        · have hr1 : (hasIterator r && !isStringV r) = true :=
            (slotKind_zero r).mp (hk0 ▸ (slotKind_zero c).mpr hb1)
          have hcr : classifyChunks r = iterElems r := by
            rw [classifyChunks, if_pos hr1]
          rw [jsZip_cons, jsZip_cons, planFrom_cons, if_pos hb1,
            List.flatMap_cons, List.flatMap_cons, List.flatMap_cons, runStmt, runStmt, hr0]
          have hfin := rtext_append_congr
            (Value.str (joinStrs (cur.map (pieceVal A))) :: iterElems r) _ _ IH
          simpa [List.append_assoc, hcr] using hfin
        · by_cases hb2 : isAsync c = true
          · have hr1 : (hasIterator r && !isStringV r) = false ∧ isAsync r = true :=
              (slotKind_one r).mp
                (hk0 ▸ (slotKind_one c).mpr ⟨by simpa using hb1, hb2⟩)
            have hcr : classifyChunks r = [r] := by
              have hthen : hasThen r = true := by
                have h3 := hr1.2
                rwa [isAsync] at h3
              rw [classifyChunks, if_neg (by simp [hr1.1]), if_pos hthen]
            rw [jsZip_cons, jsZip_cons, planFrom_cons, if_neg (by simp [hb1]), if_pos hb2,
              List.flatMap_cons, List.flatMap_cons, List.flatMap_cons, runStmt, runStmt, hr0]
            have hfin := rtext_append_congr
              [Value.str (joinStrs (cur.map (pieceVal A))), r] _ _ IH
            simpa [List.append_assoc, hcr] using hfin
          · have hr1 : (hasIterator r && !isStringV r) = false ∧ isAsync r = false :=
              (slotKind_two r).mp
                (hk0 ▸ (slotKind_two c).mpr ⟨by simpa using hb1, by simpa using hb2⟩)
            have hcr : classifyChunks r = [.str (escape (jsString r))] := by
              have hthen : hasThen r = false := by
                have h3 := hr1.2
                rwa [isAsync] at h3
              rw [classifyChunks, if_neg (by simp [hr1.1]), if_neg (by simp [hthen])]
            have IH2 := planFrom_run A ps2 cv2 rv2 (n + 1) (cur ++ [.slot n, .text p])
              hlen1 hlen2 hA2 hk2
            rw [jsZip_cons, jsZip_cons, planFrom_cons, if_neg (by simp [hb1]),
              if_neg (by simp [hb2]), IH2]
            simp only [List.flatMap_cons, hcr, List.map_append, List.map_cons, List.map_nil,
              pieceVal, joinStrs_append, joinStrs_cons, joinStrs_nil, String.append_empty,
              hr0, List.cons_append, List.nil_append, List.singleton_append]
            rw [rtext_str_cons, rtext_str_cons, rtext_str_cons, rtext_str_cons]
            cases rtext ((jsZip ps2 rv2).flatMap
                fun pv => classifyChunks pv.2 ++ [.str pv.1]) <;>
              simp [String.append_assoc]

/-- C3 counterexample: each slot's emission strategy is fixed at compile
time from the *first* invocation's value — the generated code contains no
per-value dispatch.  A producer compiled when slot 0 held a plain value
concatenates `utils.escape(String(arg0))` unconditionally; invoked later
with a thenable in that slot it stringifies the thenable (to
`[object Object]`) instead of awaiting it, while the naive sequencer of
part 1 yields the deferred and the renderer awaits `"<b>"`. -/
theorem producer_fixed_strategy_counterexample :
    rtext (producerChunks ["", ""] [.prim "x"] [.thenable 0 (.str "<b>")])
      = .ok "[object Object]"
    ∧ rtext (html ["", ""] [.thenable 0 (.str "<b>")]) = .ok "<b>"
    ∧ slotKind (.prim "x") ≠ slotKind (.thenable 0 (.str "<b>"))
    ∧ (Except.ok "[object Object]" : Except RErr String) ≠ .ok "<b>" := by
  refine ⟨?_, ?_, by decide, ?_⟩
  · simp [producerChunks, buildSource, planFrom, runStmt, pieceVal, jsString,
      isAsync, hasThen, hasIterator, isStringV, rtext, joinStrs]
    decide
  · simp [html, classifyChunks, hasIterator, isStringV, hasThen, rtext, awaited, joinStrs]
    decide
  · intro h
    exact absurd (Except.ok.inj h) (by decide)

/-- C3 (amended): the compiled producer is built once from the template
parts and the compiling invocation's values, with one fixed strategy per
slot; for every later invocation whose values select, slot for slot, the
same `buildSource` branch as the compiling values (iterable / async /
literal), rendering the producer's chunks yields exactly the same text as
rendering the naive part-1 sequencer on the same segments and values, so
such renders depend only on the call's own values and never leak the
compiling call's values. -/
theorem producer_matches_html (first : String) (rest : List String) (cv rv : List Value)
    (h1 : rest.length = cv.length) (h2 : cv.length = rv.length)
    (hk : ∀ k, k < cv.length →
      slotKind (cv.getD k (.prim "undefined")) = slotKind (rv.getD k (.prim "undefined"))) :
    rtext (producerChunks (first :: rest) cv rv) = rtext (html (first :: rest) rv) := by
  have h := planFrom_run rv rest cv rv 0 [.text first] h1 h2
    (by intro k hkk; simp) hk
  simp only [List.map_cons, List.map_nil, pieceVal, joinStrs_cons, joinStrs_nil,
    String.append_empty] at h
  rw [producerChunks, buildSource, html_cons]
  exact h

/-- Witness for the amended C3: same call site compiled with one string
and invoked with another (same literal slot kind). -/
theorem producer_matches_html_witness :
    rtext (producerChunks ["<p>", "</p>"] [.str "first"] [.str "<b>"])
      = rtext (html ["<p>", "</p>"] [.str "<b>"]) :=
  producer_matches_html "<p>" ["</p>"] [.str "first"] [.str "<b>"] rfl rfl (by
    intro k hkk
    simp at hkk
    have hk0 : k = 0 := by omega
    subst hk0
    rfl)

end TplStream
